import Mathlib

/-!
Shallow embedding of the `sieves` crate (src/lib.rs): a raw shared
pointer wrapper `ThreadSafeMutPtr` and a monotonic boolean array
`SieveVecBool` with sequential and parallel marking operations.

Modelling choices:
- The inner `Vec<bool>` is a `List Bool`; a write through
  `get_unchecked_mut` / pointer `write` of `false` at index `i` is
  `List.set v i false` (out-of-range writes are undefined behavior in
  the source; every claim carries the corresponding in-range
  precondition).
- A raw pointer `*mut T` is its address, a `Nat`; the null pointer is
  address `0`, and a mutable reference produced from a pointer is
  modelled by the address it points to.
- The loop increment `index += step_size` of `set_step_range_to_false`
  is usize addition: it wraps modulo 2^64 (`usizeSize`) in release
  builds and panics on overflow in debug builds.  The exact
  release-mode loop is `stepRangeWrapLoopOpt`, with an iteration
  budget (`none` means the budget was exhausted while the loop guard
  still held, i.e. the loop has not yet exited within that many
  iterations).  The total function `set_step_range_to_false` runs the
  loop body with unbounded Nat increments and budget `stop - start`;
  by `stepRangeWrapLoopOpt_eq_some` it is exactly what the loop
  computes whenever no increment wraps — every generated index `j`
  has `j + step_size < usizeSize` — and in that case debug builds do
  not panic either, so it is the behavior of both builds.  At
  wrap-inducing inputs the two genuinely differ (the release loop
  wraps past zero and keeps marking, debug panics); the claims about
  the raw strided loop carry the wrap-freedom hypothesis, and the
  counterexample theorems exhibit the divergence.
- A parallel operation dispatches one write of `false` per generated
  index across a thread pool and returns only after all writes are
  done.  Its executions are modelled by applying the generated writes
  in an arbitrary order: any interleaving across any number of threads
  performs exactly the writes of some permutation of the generated
  index list, so quantifying over all permutations covers all
  schedules.  The named functions (`set_step_range_to_false_par`,
  `set_multiples_to_false_par`, `set_multiples_of_slice_to_false_par`)
  denote the canonical (program-order) execution, and the
  order-independence theorems quantify over the permutations.
-/

namespace Sieves

/-- Model of `ThreadSafeMutPtr<T>`: a raw mutable pointer, i.e. an
address.  Address 0 is the null pointer. -/
structure ThreadSafeMutPtr where
  ptr : Nat
deriving DecidableEq

/-- Model of `ThreadSafeMutPtr::into_inner`: returns the inner pointer. -/
def ThreadSafeMutPtr.into_inner (p : ThreadSafeMutPtr) : Nat :=
  p.ptr

/-- Model of `<*mut T>::as_mut`: `none` when the pointer is null,
otherwise the (address of the) mutable reference. -/
def ptrAsMut (addr : Nat) : Option Nat :=
  if addr = 0 then none else some addr

/-- Model of `ThreadSafeMutPtr::into_mut_ref`:
`self.into_inner().as_mut()`. -/
def ThreadSafeMutPtr.into_mut_ref (p : ThreadSafeMutPtr) : Option Nat :=
  ptrAsMut p.into_inner

/-- Model of `ThreadSafeMutPtr::add`: pointer offset by `amount`
elements. -/
def ThreadSafeMutPtr.add (p : ThreadSafeMutPtr) (amount : Nat) : ThreadSafeMutPtr :=
  ⟨p.ptr + amount⟩

/-- Model of `SieveVecBool::set_false_unchecked`: write `false` at
`index` (in the source, through `get_unchecked_mut`; precondition
`index < length`, carried by the theorems). -/
def set_false_unchecked (v : List Bool) (index : Nat) : List Bool :=
  v.set index false

/-- The number of usize values, 2^64: usize arithmetic is modulo this
in release builds. -/
def usizeSize : Nat := 18446744073709551616

/-- The exact release-mode while loop of `set_step_range_to_false`,
with an explicit iteration budget: `index += step_size` is usize
addition, wrapping modulo `usizeSize`; `none` means the budget ran
out while the guard `index < stop` still held (so the loop has not
exited within that many iterations — with `step_size = 0` and
`start < stop`, or with a wrapping step that cycles below `stop`, it
never does, and every budget gives `none`).  A debug build panics at
the first increment that overflows; on wrap-free runs the two builds
agree. -/
def stepRangeWrapLoopOpt : Nat → List Bool → Nat → Nat → Nat → Option (List Bool)
  | 0, v, index, stop, _ =>
      if index < stop then none else some v
  | fuel + 1, v, index, stop, step_size =>
      if index < stop then
        stepRangeWrapLoopOpt fuel (set_false_unchecked v index)
          ((index + step_size) % usizeSize) stop step_size
      else some v

/-- The loop body of `set_step_range_to_false` run for a bounded
number of iterations with unbounded (non-wrapping) Nat increments:
the loop's behavior on runs where no increment overflows usize (see
`stepRangeWrapLoopOpt_eq_some`). -/
def stepRangeLoop : Nat → List Bool → Nat → Nat → Nat → List Bool
  | 0, v, _, _, _ => v
  | fuel + 1, v, index, stop, step_size =>
      if index < stop then
        stepRangeLoop fuel (set_false_unchecked v index) (index + step_size) stop step_size
      else v

/-- Model of `SieveVecBool::set_step_range_to_false`: the while loop
`index = start; while index < stop { set_false_unchecked(index); index += step_size }`
on its wrap-free runs.  The budget `stop - start` bounds the
iteration count whenever `step_size >= 1` and no increment wraps; on
exactly those runs `stepRangeWrapLoopOpt_eq_some` proves this total
function is what the release-mode loop computes (and debug does not
panic).  At wrap-inducing inputs the program diverges from this
function; the claims carry the wrap-freedom hypothesis there. -/
def set_step_range_to_false (v : List Bool) (start stop step_size : Nat) : List Bool :=
  stepRangeLoop (stop - start) v start stop step_size

/-- The index list generated by `(start..stop).step_by(step_size)`
(Rust range iterator; `step_by` requires a nonzero step), with an
iteration budget mirroring `stepRangeLoop`. -/
def stepIndicesLoop : Nat → Nat → Nat → Nat → List Nat
  | 0, _, _, _ => []
  | fuel + 1, index, stop, step_size =>
      if index < stop then
        index :: stepIndicesLoop fuel (index + step_size) stop step_size
      else []

/-- The indices `start, start + step_size, start + 2 * step_size, ...`
strictly below `stop`: the elements of `(start..stop).step_by(step_size)`. -/
def stepIndices (start stop step_size : Nat) : List Nat :=
  stepIndicesLoop (stop - start) start stop step_size

/-- Apply a list of writes of `false`, in list order.  A parallel
execution that performs these writes in some scheduling order is the
fold over the corresponding permutation of the index list. -/
def applyWrites (v : List Bool) (idxs : List Nat) : List Bool :=
  idxs.foldl (fun a i => a.set i false) v

/-- Model of `SieveVecBool::set_step_range_to_false_par` (canonical,
program-order execution): one write of `false` per index of
`(start..stop).step_by(step_size)`. -/
def set_step_range_to_false_par (v : List Bool) (start stop step_size : Nat) : List Bool :=
  applyWrites v (stepIndices start stop step_size)

/-- Model of `SieveVecBool::set_multiples_to_false`:
`set_step_range_to_false(n, self.vec.len(), n)`. -/
def set_multiples_to_false (v : List Bool) (n : Nat) : List Bool :=
  set_step_range_to_false v n v.length n

/-- Model of `SieveVecBool::set_multiples_to_false_par`:
`set_step_range_to_false_par(n, self.vec.len(), n)`. -/
def set_multiples_to_false_par (v : List Bool) (n : Nat) : List Bool :=
  set_step_range_to_false_par v n v.length n

/-- The concatenation, in slice order, of the write lists of the
sub-operations `set_multiples_to_false(n)` for each `n` in the slice
(each sub-operation reads the array length, which no write changes). -/
def sliceWrites (len : Nat) : List Nat → List Nat
  | [] => []
  | n :: rest => stepIndices n len n ++ sliceWrites len rest

/-- Model of `SieveVecBool::set_multiples_of_slice_to_false_par`
(canonical, program-order execution): for each `n` in the slice, mark
all multiples of `n`; the outer loop is itself parallel, so real
executions interleave the write lists, i.e. perform a permutation of
`sliceWrites`. -/
def set_multiples_of_slice_to_false_par (v : List Bool) (slice : List Nat) : List Bool :=
  applyWrites v (sliceWrites v.length slice)

/-! ### Basic lemmas about `applyWrites` -/

lemma applyWrites_nil (v : List Bool) : applyWrites v [] = v :=
  rfl

lemma applyWrites_cons (v : List Bool) (a : Nat) (l : List Nat) :
    applyWrites v (a :: l) = applyWrites (v.set a false) l :=
  rfl

lemma applyWrites_append (v : List Bool) (l l' : List Nat) :
    applyWrites v (l ++ l') = applyWrites (applyWrites v l) l' :=
  List.foldl_append _ _ _ _

lemma length_applyWrites (l : List Nat) (v : List Bool) :
    (applyWrites v l).length = v.length := by
  induction l generalizing v with
  | nil => rfl
  | cons a l ih =>
      rw [applyWrites_cons, ih, List.length_set]

/-- Pointwise description of a batch of writes of `false`: a slot is
`false` afterwards exactly when its index occurs among the writes and
is in range; every other slot is unchanged. -/
lemma applyWrites_getElem? (l : List Nat) (v : List Bool) (i : Nat) :
    (applyWrites v l)[i]? =
      if i ∈ l ∧ i < v.length then some false else v[i]? := by
  induction l generalizing v with
  | nil => simp [applyWrites_nil]
  | cons a l ih =>
      rw [applyWrites_cons, ih, List.length_set, List.getElem?_set]
      by_cases hlen : i < v.length
      · by_cases hmem : i ∈ l
        · simp [hmem, hlen]
        · by_cases hia : a = i
          · simp [hmem, hlen, hia, List.mem_cons]
          · have hai : ¬ i = a := fun h => hia h.symm
            simp [hmem, hlen, hia, hai, List.mem_cons]
      · have hv : v[i]? = none := by
          rw [List.getElem?_eq_none]
          omega
        by_cases hia : a = i
        · simp [hlen, hia, hv]
        · simp [hlen, hia]

/-- Writes of `false` are order-independent: any two permutations of
the same write list produce the same array. -/
lemma applyWrites_perm {l l' : List Nat} (h : l.Perm l') (v : List Bool) :
    applyWrites v l = applyWrites v l' := by
  apply List.ext_getElem?
  intro i
  rw [applyWrites_getElem?, applyWrites_getElem?]
  by_cases hm : i ∈ l
  · have hm' : i ∈ l' := h.mem_iff.mp hm
    simp [hm, hm']
  · have hm' : i ∉ l' := fun hx => hm (h.mem_iff.mpr hx)
    simp [hm, hm']

/-- Duplicate writes are irrelevant: writing each distinct index once
gives the same array. -/
lemma applyWrites_dedup (l : List Nat) (v : List Bool) :
    applyWrites v l = applyWrites v l.dedup := by
  apply List.ext_getElem?
  intro i
  rw [applyWrites_getElem?, applyWrites_getElem?]
  by_cases hm : i ∈ l
  · have hm' : i ∈ l.dedup := List.mem_dedup.mpr hm
    simp [hm, hm']
  · have hm' : i ∉ l.dedup := fun hx => hm (List.mem_dedup.mp hx)
    simp [hm, hm']

/-! ### The sequential loop computes `applyWrites` over `stepIndices` -/

lemma stepRangeLoop_eq_applyWrites (fuel : Nat) :
    ∀ (v : List Bool) (index stop step_size : Nat),
      stepRangeLoop fuel v index stop step_size =
        applyWrites v (stepIndicesLoop fuel index stop step_size) := by
  induction fuel with
  | zero => intro v index stop step_size; rfl
  | succ fuel ih =>
      intro v index stop step_size
      rw [stepRangeLoop, stepIndicesLoop]
      by_cases h : index < stop
      · simp only [h, if_true]
        rw [ih, applyWrites_cons]
        rfl
      · simp [h, applyWrites_nil]

lemma set_step_range_eq_applyWrites (v : List Bool) (start stop step_size : Nat) :
    set_step_range_to_false v start stop step_size =
      applyWrites v (stepIndices start stop step_size) :=
  stepRangeLoop_eq_applyWrites _ _ _ _ _

lemma length_set_step_range (v : List Bool) (start stop step_size : Nat) :
    (set_step_range_to_false v start stop step_size).length = v.length := by
  rw [set_step_range_eq_applyWrites, length_applyWrites]

/-! ### Membership in the generated index list -/

lemma mem_stepIndicesLoop (fuel : Nat) :
    ∀ (index stop step_size i : Nat), 1 ≤ step_size → stop - index ≤ fuel →
      (i ∈ stepIndicesLoop fuel index stop step_size ↔
        (∃ m, i = index + m * step_size) ∧ i < stop) := by
  induction fuel with
  | zero =>
      intro index stop step_size i hstep hfuel
      rw [stepIndicesLoop]
      constructor
      · intro h; simp at h
      · rintro ⟨⟨m, rfl⟩, hlt⟩
        omega
  | succ fuel ih =>
      intro index stop step_size i hstep hfuel
      rw [stepIndicesLoop]
      by_cases h : index < stop
      · simp only [h, if_true, List.mem_cons]
        rw [ih (index + step_size) stop step_size i hstep (by omega)]
        constructor
        · rintro (rfl | ⟨⟨m, rfl⟩, hlt⟩)
          · exact ⟨⟨0, by omega⟩, h⟩
          · exact ⟨⟨m + 1, by ring⟩, hlt⟩
        · rintro ⟨⟨m, rfl⟩, hlt⟩
          cases m with
          | zero => left; omega
          | succ m =>
              right
              refine ⟨⟨m, by ring⟩, hlt⟩
      · simp only [h, if_false, List.not_mem_nil, false_iff, not_and]
        rintro ⟨m, rfl⟩
        omega

lemma mem_stepIndices {start stop step_size i : Nat} (hstep : 1 ≤ step_size) :
    i ∈ stepIndices start stop step_size ↔
      (∃ m, i = start + m * step_size) ∧ i < stop :=
  mem_stepIndicesLoop _ _ _ _ _ hstep (Nat.le_refl _)

/-! ### Termination of the sequential loop -/

/-- Whenever the step is positive and no increment of the run wraps —
every generated index `j` satisfies `j + step_size < usizeSize` — (or
the loop guard is false from the start), the wrapping release-mode
loop exits within `stop - index` iterations and computes exactly the
non-wrapping `stepRangeLoop`; on such runs a debug build performs no
overflowing add either, so it does not panic. -/
lemma stepRangeWrapLoopOpt_eq_some (fuel : Nat) :
    ∀ (v : List Bool) (index stop step_size : Nat),
      stop - index ≤ fuel → (1 ≤ step_size ∨ stop ≤ index) →
      (∀ j ∈ stepIndices index stop step_size, j + step_size < usizeSize) →
      stepRangeWrapLoopOpt fuel v index stop step_size =
        some (stepRangeLoop fuel v index stop step_size) := by
  induction fuel with
  | zero =>
      intro v index stop step_size hfuel _h _hw
      have hge : ¬ index < stop := by omega
      simp [stepRangeWrapLoopOpt, stepRangeLoop, hge]
  | succ fuel ih =>
      intro v index stop step_size hfuel h hw
      rw [stepRangeWrapLoopOpt, stepRangeLoop]
      by_cases hlt : index < stop
      · have hstep : 1 ≤ step_size := by
          rcases h with h | h
          · exact h
          · omega
        have hhead : index ∈ stepIndices index stop step_size :=
          (mem_stepIndices hstep).mpr ⟨⟨0, by omega⟩, hlt⟩
        have hno : index + step_size < usizeSize := hw index hhead
        simp only [hlt, if_true]
        rw [Nat.mod_eq_of_lt hno]
        apply ih _ _ _ _ (by omega) (Or.inl hstep)
        intro j hj
        apply hw
        rcases (mem_stepIndices hstep).mp hj with ⟨⟨m, rfl⟩, hjlt⟩
        exact (mem_stepIndices hstep).mpr ⟨⟨m + 1, by ring⟩, hjlt⟩
      · simp [hlt]

/-- With a zero step and a true loop guard, the loop never exits: no
iteration budget is ever enough. -/
lemma stepRangeWrapLoopOpt_zero_step (fuel : Nat) :
    ∀ (v : List Bool) (index stop : Nat), index < stop → index < usizeSize →
      stepRangeWrapLoopOpt fuel v index stop 0 = none := by
  induction fuel with
  | zero =>
      intro v index stop h hu
      simp [stepRangeWrapLoopOpt, h]
  | succ fuel ih =>
      intro v index stop h hu
      simp only [stepRangeWrapLoopOpt, h, if_true]
      rw [Nat.add_zero, Nat.mod_eq_of_lt hu]
      exact ih _ _ _ h hu

/-- A positive step does not by itself make the release-mode loop
exit: with `start = 0`, `stop = 2^63 + 1` and `step_size = 2^63` the
index wraps and cycles between `0` and `2^63`, both below `stop`, so
no iteration budget is ever enough (a debug build panics at the
second increment instead). -/
lemma stepRangeWrapLoopOpt_cycle (fuel : Nat) :
    ∀ (v : List Bool) (index : Nat),
      (index = 0 ∨ index = 9223372036854775808) →
      stepRangeWrapLoopOpt fuel v index 9223372036854775809
        9223372036854775808 = none := by
  induction fuel with
  | zero =>
      intro v index h
      have hlt : index < 9223372036854775809 := by
        rcases h with rfl | rfl <;> omega
      simp [stepRangeWrapLoopOpt, hlt]
  | succ fuel ih =>
      intro v index h
      have hlt : index < 9223372036854775809 := by
        rcases h with rfl | rfl <;> omega
      simp only [stepRangeWrapLoopOpt, hlt, if_true]
      apply ih
      rcases h with rfl | rfl
      · exact Or.inr (by decide)
      · exact Or.inl (by decide)

/-! ### The marking operations as an algebra -/

/-- The marking operations of `SieveVecBool`, with their arguments. -/
inductive SieveOp where
  | setFalse (index : Nat)
  | stepRange (start stop step_size : Nat)
  | stepRangePar (start stop step_size : Nat)
  | multiples (n : Nat)
  | multiplesPar (n : Nat)
  | multiplesSlicePar (slice : List Nat)

/-- Run one marking operation on the array. -/
def SieveOp.apply : SieveOp → List Bool → List Bool
  | SieveOp.setFalse i, v => set_false_unchecked v i
  | SieveOp.stepRange s t k, v => set_step_range_to_false v s t k
  | SieveOp.stepRangePar s t k, v => set_step_range_to_false_par v s t k
  | SieveOp.multiples n, v => set_multiples_to_false v n
  | SieveOp.multiplesPar n, v => set_multiples_to_false_par v n
  | SieveOp.multiplesSlicePar s, v => set_multiples_of_slice_to_false_par v s

/-- The safety precondition each operation carries in the source
(`# Safety` comments): generated or given indices in range, and a
nonzero step.  For the raw sequential strided marker this must also
exclude usize overflow of the loop increment (`j + k < usizeSize` for
every generated index `j`): an overflowing run wraps past zero in
release mode — reaching indices outside the generated list, up to an
out-of-bounds `get_unchecked_mut` write — and panics in debug mode,
so index-validity of the generated list alone does not make the call
safe.  The parallel form advances through the `step_by` iterator
(`Range::nth`), which cannot overflow, and the multiples forms pass
`(n, len, n)` with `len` a `Vec` length (at most `isize::MAX`), so
their increments cannot overflow on any reachable state. -/
def SieveOp.pre : SieveOp → List Bool → Prop
  | SieveOp.setFalse i, v => i < v.length
  | SieveOp.stepRange s t k, v =>
      1 ≤ k ∧ (∀ j ∈ stepIndices s t k, j < v.length) ∧
        ∀ j ∈ stepIndices s t k, j + k < usizeSize
  | SieveOp.stepRangePar s t k, v => 1 ≤ k ∧ ∀ j ∈ stepIndices s t k, j < v.length
  | SieveOp.multiples n, _ => 1 ≤ n
  | SieveOp.multiplesPar n, _ => 1 ≤ n
  | SieveOp.multiplesSlicePar s, _ => ∀ n ∈ s, 1 ≤ n

/-- Run a sequence of marking operations, first to last. -/
def applyAll : List SieveOp → List Bool → List Bool
  | [], v => v
  | op :: rest, v => applyAll rest (op.apply v)

/-- Every operation of a sequence is applied under its precondition. -/
def presOK : List SieveOp → List Bool → Prop
  | [], _ => True
  | op :: rest, v => op.pre v ∧ presOK rest (op.apply v)

lemma getElem?_applyWrites_mono (l : List Nat) (v : List Bool) (i : Nat)
    (h : v[i]? = some false) : (applyWrites v l)[i]? = some false := by
  rw [applyWrites_getElem?]
  split
  · rfl
  · exact h

lemma getElem?_set_false_mono (v : List Bool) (j i : Nat)
    (h : v[i]? = some false) : (v.set j false)[i]? = some false :=
  getElem?_applyWrites_mono [j] v i h

/-- Every single operation only writes `false`: a slot already `false`
stays `false`. -/
lemma apply_mono (op : SieveOp) (v : List Bool) (i : Nat)
    (h : v[i]? = some false) : (op.apply v)[i]? = some false := by
  cases op <;>
    simp only [SieveOp.apply, set_false_unchecked, set_multiples_to_false,
      set_multiples_to_false_par, set_step_range_to_false_par,
      set_multiples_of_slice_to_false_par, set_step_range_eq_applyWrites] <;>
    first
      | exact getElem?_applyWrites_mono _ _ _ h
      | exact getElem?_set_false_mono _ _ _ h

/-- Every single operation leaves the length unchanged. -/
lemma length_apply (op : SieveOp) (v : List Bool) :
    (op.apply v).length = v.length := by
  cases op <;>
    simp only [SieveOp.apply, set_false_unchecked, set_multiples_to_false,
      set_multiples_to_false_par, set_step_range_to_false_par,
      set_multiples_of_slice_to_false_par, set_step_range_eq_applyWrites] <;>
    first
      | exact length_applyWrites _ _
      | exact List.length_set _ _ _

/-! ### Shared helper -/

lemma stepIndices_eq_nil {start stop step_size : Nat} (h : stop ≤ start) :
    stepIndices start stop step_size = [] := by
  rw [stepIndices]
  have h0 : stop - start = 0 := by omega
  rw [h0, stepIndicesLoop]

/-! ### The claims -/

/-- C1 (amended): for every boolean array state, every start, stop
and step_size >= 1 with every generated index in range and no loop
increment overflowing usize (every generated index j has
j + step_size < 2^64), the sequential marker — whose release-mode
loop provably exits within stop - start iterations with exactly the
value of set_step_range_to_false — leaves exactly the same array
(hence the same set of false indices) as the parallel marker: every
scheduling of the dispatched writes, any permutation of the generated
index list, which covers all thread counts including 1, produces the
sequential result.  Without the wrap-freedom hypothesis the claim is
false; see the counterexample. -/
theorem claim_C1 (v : List Bool) (start stop step_size : Nat) (order : List Nat)
    (hstep : 1 ≤ step_size)
    (hrange : ∀ j ∈ stepIndices start stop step_size, j < v.length)
    (hnowrap : ∀ j ∈ stepIndices start stop step_size, j + step_size < usizeSize)
    (hperm : order.Perm (stepIndices start stop step_size)) :
    stepRangeWrapLoopOpt (stop - start) v start stop step_size =
      some (set_step_range_to_false v start stop step_size) ∧
    applyWrites v order = set_step_range_to_false v start stop step_size ∧
    set_step_range_to_false_par v start stop step_size =
      set_step_range_to_false v start stop step_size := by
  refine ⟨?_, ?_, ?_⟩
  · exact stepRangeWrapLoopOpt_eq_some _ _ _ _ _ (Nat.le_refl _)
      (Or.inl hstep) hnowrap
  · rw [applyWrites_perm hperm v, set_step_range_eq_applyWrites]
  · rw [set_step_range_to_false_par, set_step_range_eq_applyWrites]

/-- C1 is false as originally stated: at start 5, stop 10,
step_size 2^64 - 1 on a length-10 array, the generated index list is
[5] (in range, so the original precondition holds), the parallel
marker marks only index 5, but the release-mode sequential loop wraps
5 + (2^64 - 1) to 4 and goes on to mark 4, 3, 2, 1, 0 before exiting
(a debug build panics instead of returning). -/
theorem claim_C1_counterexample :
    stepIndices 5 10 18446744073709551615 = [5] ∧
    set_step_range_to_false_par (List.replicate 10 true) 5 10
        18446744073709551615 =
      [true, true, true, true, true, false, true, true, true, true] ∧
    stepRangeWrapLoopOpt 16 (List.replicate 10 true) 5 10
        18446744073709551615 =
      some [false, false, false, false, false, false, true, true, true, true] := by
  refine ⟨by decide, by decide, by decide⟩

theorem claim_C1_witness :
    applyWrites [true, true, true, true, true, true] [5, 1, 3] =
      set_step_range_to_false [true, true, true, true, true, true] 1 6 2 :=
  (claim_C1 [true, true, true, true, true, true] 1 6 2 [5, 1, 3]
    (by decide) (by decide) (by decide) (by decide)).2.1

/-- C2 (amended): provided no loop increment overflows usize (every
generated index start + k * step_size below stop additionally
satisfies start + k * step_size + step_size < 2^64), the sequential
marker — whose release-mode loop provably exits within stop - start
iterations with exactly the value of set_step_range_to_false — sets
to false exactly the indices start + k * step_size (k = 0, 1, 2, ...)
strictly below stop, leaves every other slot unchanged, preserves the
length, and is a no-op when start >= stop.  Without the wrap-freedom
hypothesis the claim is false; see the counterexample. -/
theorem claim_C2 (v : List Bool) (start stop step_size : Nat)
    (hstep : 1 ≤ step_size)
    (hrange : ∀ k : Nat, start + k * step_size < stop →
      start + k * step_size < v.length)
    (hnowrap : ∀ k : Nat, start + k * step_size < stop →
      start + k * step_size + step_size < usizeSize) :
    (stepRangeWrapLoopOpt (stop - start) v start stop step_size =
      some (set_step_range_to_false v start stop step_size)) ∧
    ((set_step_range_to_false v start stop step_size).length = v.length) ∧
    (∀ i, i < stop → (∃ k : Nat, i = start + k * step_size) →
      (set_step_range_to_false v start stop step_size)[i]? = some false) ∧
    (∀ i, ¬ (i < stop ∧ ∃ k : Nat, i = start + k * step_size) →
      (set_step_range_to_false v start stop step_size)[i]? = v[i]?) ∧
    (stop ≤ start → set_step_range_to_false v start stop step_size = v) := by
  refine ⟨?_, length_set_step_range v start stop step_size, ?_, ?_, ?_⟩
  · apply stepRangeWrapLoopOpt_eq_some _ _ _ _ _ (Nat.le_refl _) (Or.inl hstep)
    intro j hj
    rcases (mem_stepIndices hstep).mp hj with ⟨⟨k, rfl⟩, hlt⟩
    exact hnowrap k hlt
  · rintro i hi ⟨k, hk⟩
    rw [set_step_range_eq_applyWrites, applyWrites_getElem?]
    have hmem : i ∈ stepIndices start stop step_size :=
      (mem_stepIndices hstep).mpr ⟨⟨k, hk⟩, hi⟩
    have hlen : i < v.length := by
      subst hk
      exact hrange k hi
    simp [hmem, hlen]
  · intro i hni
    rw [set_step_range_eq_applyWrites, applyWrites_getElem?]
    have hmem : i ∉ stepIndices start stop step_size := by
      intro hm
      rcases (mem_stepIndices hstep).mp hm with ⟨hex, hlt⟩
      exact hni ⟨hlt, hex⟩
    simp [hmem]
  · intro hss
    rw [set_step_range_eq_applyWrites, stepIndices_eq_nil hss, applyWrites_nil]

/-- C2 is false as originally stated: at start 5, stop 10,
step_size 2^64 - 1 on a length-10 all-true array every generated
index (only 5) is in range, and slot 4 is not of the form
5 + k * (2^64 - 1) and so should stay true — but the release-mode
loop wraps and writes it (and 0, 1, 2, 3) to false; a debug build
panics on the overflowing add instead of returning. -/
theorem claim_C2_counterexample :
    (∀ k : Nat, 5 + k * 18446744073709551615 < 10 →
      5 + k * 18446744073709551615 < 10) ∧
    ¬ (∃ k : Nat, (4 : Nat) = 5 + k * 18446744073709551615) ∧
    stepRangeWrapLoopOpt 16 (List.replicate 10 true) 5 10
        18446744073709551615 =
      some [false, false, false, false, false, false, true, true, true, true] := by
  refine ⟨fun k h => h, ?_, by decide⟩
  rintro ⟨k, hk⟩
  omega

theorem claim_C2_witness :
    stepRangeWrapLoopOpt 5 [true, true, true, true, true, true] 1 6 2 =
      some (set_step_range_to_false [true, true, true, true, true, true] 1 6 2) ∧
    (set_step_range_to_false [true, true, true, true, true, true] 1 6 2)[3]? =
      some false ∧
    (set_step_range_to_false [true, true, true, true, true, true] 1 6 2)[2]? =
      [true, true, true, true, true, true][2]? ∧
    set_step_range_to_false [true, true, true] 5 2 1 = [true, true, true] := by
  refine ⟨?_, ?_, ?_, ?_⟩
  · exact (claim_C2 [true, true, true, true, true, true] 1 6 2 (by decide)
      (fun k h => h) (fun k h => by simp only [usizeSize]; omega)).1
  · exact (claim_C2 [true, true, true, true, true, true] 1 6 2 (by decide)
      (fun k h => h) (fun k h => by simp only [usizeSize]; omega)).2.2.1 3
      (by decide) ⟨1, by decide⟩
  · exact (claim_C2 [true, true, true, true, true, true] 1 6 2 (by decide)
      (fun k h => h) (fun k h => by simp only [usizeSize]; omega)).2.2.2.1 2
      (by rintro ⟨-, k, hk⟩; omega)
  · exact (claim_C2 [true, true, true] 5 2 1 (by decide)
      (fun k h => absurd h (by omega))
      (fun k h => absurd h (by omega))).2.2.2.2 (by decide)

/-- C3: marking multiples of n (n >= 1) is exactly the strided marking
with start = n, stop = length, step = n: it sets to false exactly the
positive multiples of n below the length, leaves every other slot
unchanged, and is a no-op when n equals or exceeds the length. -/
theorem claim_C3 (v : List Bool) (n : Nat) (hn : 1 ≤ n) :
    set_multiples_to_false v n = set_step_range_to_false v n v.length n ∧
    (∀ i, i < v.length → (∃ k, 1 ≤ k ∧ i = k * n) →
      (set_multiples_to_false v n)[i]? = some false) ∧
    (∀ i, ¬ (i < v.length ∧ ∃ k, 1 ≤ k ∧ i = k * n) →
      (set_multiples_to_false v n)[i]? = v[i]?) ∧
    (v.length ≤ n → set_multiples_to_false v n = v) := by
  have hmul : ∀ i : Nat, (∃ k, 1 ≤ k ∧ i = k * n) ↔ (∃ m, i = n + m * n) := by
    intro i
    constructor
    · rintro ⟨k, hk1, rfl⟩
      cases k with
      | zero => omega
      | succ m => exact ⟨m, by ring⟩
    · rintro ⟨m, rfl⟩
      exact ⟨m + 1, by omega, by ring⟩
  refine ⟨rfl, ?_, ?_, ?_⟩
  · intro i hi hk
    rw [set_multiples_to_false, set_step_range_eq_applyWrites, applyWrites_getElem?]
    have hmem : i ∈ stepIndices n v.length n :=
      (mem_stepIndices hn).mpr ⟨(hmul i).mp hk, hi⟩
    simp [hmem, hi]
  · intro i hni
    rw [set_multiples_to_false, set_step_range_eq_applyWrites, applyWrites_getElem?]
    have hmem : i ∉ stepIndices n v.length n := by
      intro hm
      rcases (mem_stepIndices hn).mp hm with ⟨hex, hlt⟩
      exact hni ⟨hlt, (hmul i).mpr hex⟩
    simp [hmem]
  · intro hbig
    rw [set_multiples_to_false, set_step_range_eq_applyWrites,
      stepIndices_eq_nil hbig, applyWrites_nil]

theorem claim_C3_witness :
    (set_multiples_to_false [true, true, true, true, true] 2)[4]? = some false ∧
    (set_multiples_to_false [true, true, true, true, true] 2)[3]? =
      [true, true, true, true, true][3]? ∧
    set_multiples_to_false [true, true, true] 3 = [true, true, true] ∧
    set_multiples_to_false [true, true, true] 7 = [true, true, true] := by
  refine ⟨?_, ?_, ?_, ?_⟩
  · exact (claim_C3 [true, true, true, true, true] 2 (by decide)).2.1 4
      (by decide) ⟨2, by decide, by decide⟩
  · exact (claim_C3 [true, true, true, true, true] 2 (by decide)).2.2.1 3
      (by rintro ⟨-, k, hk1, hk2⟩; omega)
  · exact (claim_C3 [true, true, true] 3 (by decide)).2.2.2 (by decide)
  · exact (claim_C3 [true, true, true] 7 (by decide)).2.2.2 (by decide)

/-- C4: starting from an all-true array of length 30, marking the
multiples of each of [2, 3, 5] in parallel leaves exactly the indices
2,3,4,5,6,8,9,10,12,14,15,16,18,20,21,22,24,25,26,27,28 false and the
indices 0,1,7,11,13,17,19,23,29 true, under every execution order
(every permutation of the dispatched writes). -/
theorem claim_C4 (order : List Nat)
    (hperm : order.Perm (sliceWrites 30 [2, 3, 5])) :
    applyWrites (List.replicate 30 true) order =
      set_multiples_of_slice_to_false_par (List.replicate 30 true) [2, 3, 5] ∧
    set_multiples_of_slice_to_false_par (List.replicate 30 true) [2, 3, 5] =
      [true, true, false, false, false, false, false, true, false, false,
       false, true, false, true, false, false, false, true, false, true,
       false, false, false, true, false, false, false, false, false, true] := by
  constructor
  · exact applyWrites_perm hperm (List.replicate 30 true)
  · decide

theorem claim_C4_witness :
    applyWrites (List.replicate 30 true) ((sliceWrites 30 [2, 3, 5]).reverse) =
      set_multiples_of_slice_to_false_par (List.replicate 30 true) [2, 3, 5] :=
  (claim_C4 ((sliceWrites 30 [2, 3, 5]).reverse) (List.reverse_perm _)).1

/-- C5: monotonicity — for every sequence of marking operations, each
applied under its precondition, a slot that holds false keeps holding
false after every later operation: every write any operation performs
stores false. -/
theorem claim_C5 (ops : List SieveOp) (v : List Bool) (i : Nat)
    (hpre : presOK ops v) (h : v[i]? = some false) :
    (applyAll ops v)[i]? = some false := by
  induction ops generalizing v with
  | nil => exact h
  | cons op rest ih =>
      exact ih (op.apply v) hpre.2 (apply_mono op v i h)

theorem claim_C5_witness :
    (applyAll [SieveOp.multiples 2, SieveOp.setFalse 0]
      [true, false, true, true])[1]? = some false :=
  claim_C5 [SieveOp.multiples 2, SieveOp.setFalse 0] [true, false, true, true] 1
    ⟨show (1 : Nat) ≤ 2 by decide,
     show (0 : Nat) < (SieveOp.apply (SieveOp.multiples 2)
       [true, false, true, true]).length by decide, trivial⟩
    (by decide)

/-- C6 (amended): idempotence — marking the multiples of n (n >= 1)
twice yields the same array as marking them once; and marking two
(possibly overlapping) strided ranges in sequence, under their
preconditions and with no loop increment overflowing usize (so that
each release-mode loop provably exits with exactly the value of
set_step_range_to_false), yields the same array as writing each
generated index once (the deduplicated write list).  Without the
wrap-freedom hypothesis the strided part is false; see the
counterexample. -/
theorem claim_C6 (v : List Bool) (n : Nat) (hn : 1 ≤ n)
    (s1 t1 k1 s2 t2 k2 : Nat) (hk1 : 1 ≤ k1) (hk2 : 1 ≤ k2)
    (hr1 : ∀ j ∈ stepIndices s1 t1 k1, j < v.length)
    (hr2 : ∀ j ∈ stepIndices s2 t2 k2, j < v.length)
    (hnw1 : ∀ j ∈ stepIndices s1 t1 k1, j + k1 < usizeSize)
    (hnw2 : ∀ j ∈ stepIndices s2 t2 k2, j + k2 < usizeSize) :
    set_multiples_to_false (set_multiples_to_false v n) n =
      set_multiples_to_false v n ∧
    stepRangeWrapLoopOpt (t1 - s1) v s1 t1 k1 =
      some (set_step_range_to_false v s1 t1 k1) ∧
    stepRangeWrapLoopOpt (t2 - s2) (set_step_range_to_false v s1 t1 k1)
        s2 t2 k2 =
      some (set_step_range_to_false (set_step_range_to_false v s1 t1 k1)
        s2 t2 k2) ∧
    set_step_range_to_false (set_step_range_to_false v s1 t1 k1) s2 t2 k2 =
      applyWrites v ((stepIndices s1 t1 k1 ++ stepIndices s2 t2 k2).dedup) := by
  refine ⟨?_, stepRangeWrapLoopOpt_eq_some _ _ _ _ _ (Nat.le_refl _)
    (Or.inl hk1) hnw1, stepRangeWrapLoopOpt_eq_some _ _ _ _ _ (Nat.le_refl _)
    (Or.inl hk2) hnw2, ?_⟩
  · have hlen : (set_step_range_to_false v n v.length n).length = v.length :=
      length_set_step_range v n v.length n
    simp only [set_multiples_to_false]
    rw [hlen]
    simp only [set_step_range_eq_applyWrites]
    rw [← applyWrites_append]
    apply List.ext_getElem?
    intro i
    rw [applyWrites_getElem?, applyWrites_getElem?]
    by_cases hm : i ∈ stepIndices n v.length n
    · simp [hm, List.mem_append]
    · simp [hm, List.mem_append]
  · simp only [set_step_range_eq_applyWrites]
    rw [← applyWrites_append]
    exact applyWrites_dedup _ _

/-- C6 is false as originally stated: sequentially marking the
strided ranges (5, 10, 2^64 - 1) and then (0, 0, 1) on a length-10
all-true array should — per the original claim — write each
generated index once, i.e. only index 5; but the release-mode loop of
the first marking wraps and also writes 0, 1, 2, 3, 4 (a debug build
panics instead). -/
theorem claim_C6_counterexample :
    stepRangeWrapLoopOpt 16 (List.replicate 10 true) 5 10
        18446744073709551615 =
      some [false, false, false, false, false, false, true, true, true, true] ∧
    applyWrites (List.replicate 10 true)
        ((stepIndices 5 10 18446744073709551615 ++ stepIndices 0 0 1).dedup) =
      [true, true, true, true, true, false, true, true, true, true] := by
  refine ⟨by decide, by decide⟩

theorem claim_C6_witness :
    set_multiples_to_false (set_multiples_to_false [true, true, true, true] 2) 2 =
      set_multiples_to_false [true, true, true, true] 2 ∧
    set_step_range_to_false (set_step_range_to_false [true, true, true, true] 0 4 2)
        1 4 2 =
      applyWrites [true, true, true, true]
        ((stepIndices 0 4 2 ++ stepIndices 1 4 2).dedup) :=
  ⟨(claim_C6 [true, true, true, true] 2 (by decide) 0 4 2 1 4 2
    (by decide) (by decide) (by decide) (by decide) (by decide) (by decide)).1,
   (claim_C6 [true, true, true, true] 2 (by decide) 0 4 2 1 4 2
    (by decide) (by decide) (by decide) (by decide) (by decide)
    (by decide)).2.2.2⟩

/-- C7: determinism of the batch operation — any two executions of the
parallel multiples-of-each marking on equal inputs (any two
permutations of the dispatched writes, covering all schedulings and
interleavings) produce equal final arrays, equal to the canonical
result. -/
theorem claim_C7 (v : List Bool) (slice : List Nat) (order1 order2 : List Nat)
    (hvals : ∀ n ∈ slice, 1 ≤ n)
    (hrange : ∀ j ∈ sliceWrites v.length slice, j < v.length)
    (h1 : order1.Perm (sliceWrites v.length slice))
    (h2 : order2.Perm (sliceWrites v.length slice)) :
    applyWrites v order1 = applyWrites v order2 ∧
    applyWrites v order1 = set_multiples_of_slice_to_false_par v slice := by
  have e1 := applyWrites_perm h1 v
  have e2 := applyWrites_perm h2 v
  exact ⟨e1.trans e2.symm, e1⟩

theorem claim_C7_witness :
    applyWrites [true, true, true, true, true, true] (sliceWrites 6 [2, 3]) =
      applyWrites [true, true, true, true, true, true]
        ((sliceWrites 6 [2, 3]).reverse) ∧
    applyWrites [true, true, true, true, true, true] (sliceWrites 6 [2, 3]) =
      set_multiples_of_slice_to_false_par [true, true, true, true, true, true]
        [2, 3] :=
  claim_C7 [true, true, true, true, true, true] [2, 3] (sliceWrites 6 [2, 3])
    ((sliceWrites 6 [2, 3]).reverse) (by decide) (by decide)
    (List.Perm.refl _) (List.reverse_perm _)

/-- C8: the checked accessor into_mut_ref returns none exactly when
the inner pointer is null (address 0), and a present mutable reference
(the pointed-to address) otherwise — it does not crash on null. -/
theorem claim_C8 (p : ThreadSafeMutPtr) :
    (p.ptr = 0 → p.into_mut_ref = none) ∧
    (p.ptr ≠ 0 → p.into_mut_ref = some p.ptr) := by
  constructor
  · intro h
    simp [ThreadSafeMutPtr.into_mut_ref, ThreadSafeMutPtr.into_inner, ptrAsMut, h]
  · intro h
    simp [ThreadSafeMutPtr.into_mut_ref, ThreadSafeMutPtr.into_inner, ptrAsMut, h]

theorem claim_C8_witness :
    (ThreadSafeMutPtr.mk 0).into_mut_ref = none ∧
    (ThreadSafeMutPtr.mk 7).into_mut_ref = some 7 :=
  ⟨(claim_C8 ⟨0⟩).1 rfl, (claim_C8 ⟨7⟩).2 (by decide)⟩

/-- C9: length immutability — every marking operation, applied under
its precondition, leaves the length of the underlying boolean sequence
unchanged. -/
theorem claim_C9 (op : SieveOp) (v : List Bool) (hpre : op.pre v) :
    (op.apply v).length = v.length :=
  length_apply op v

theorem claim_C9_witness :
    (SieveOp.apply (SieveOp.multiples 3) [true, true, true, true]).length =
      [true, true, true, true].length :=
  claim_C9 (SieveOp.multiples 3) [true, true, true, true]
    (show (1 : Nat) ≤ 3 by decide)

/-- C10 (amended): termination of the sequential marker, for
usize-valued arguments — whenever start >= stop, or step_size >= 1
and no loop increment overflows usize, the while loop exits (within
stop - start iterations) and returns exactly the value of
set_step_range_to_false; with step_size = 0 and start < stop the loop
has no exit (no iteration budget ever suffices); and step_size >= 1
alone guarantees neither the return value (see the counterexample)
nor termination: with start 0, stop 2^63 + 1, step_size 2^63 the
release-mode index cycles between 0 and 2^63, both below stop, so no
budget ever suffices (a debug build panics at the second increment). -/
theorem claim_C10 (v : List Bool) (start stop step_size : Nat)
    (hstart : start < usizeSize) (hstop : stop < usizeSize)
    (hstep : step_size < usizeSize) :
    ((1 ≤ step_size ∧
        (∀ j ∈ stepIndices start stop step_size, j + step_size < usizeSize)) ∨
        stop ≤ start →
      stepRangeWrapLoopOpt (stop - start) v start stop step_size =
        some (set_step_range_to_false v start stop step_size)) ∧
    (step_size = 0 → start < stop →
      ∀ fuel, stepRangeWrapLoopOpt fuel v start stop step_size = none) ∧
    (∀ fuel, stepRangeWrapLoopOpt fuel (List.replicate 2 true) 0
        9223372036854775809 9223372036854775808 = none) := by
  refine ⟨?_, ?_, ?_⟩
  · intro h
    rcases h with ⟨h1, h2⟩ | h
    · exact stepRangeWrapLoopOpt_eq_some _ _ _ _ _ (Nat.le_refl _)
        (Or.inl h1) h2
    · apply stepRangeWrapLoopOpt_eq_some _ _ _ _ _ (Nat.le_refl _) (Or.inr h)
      intro j hj
      rw [stepIndices_eq_nil h] at hj
      exact absurd hj (List.not_mem_nil j)
  · rintro rfl h fuel
    exact stepRangeWrapLoopOpt_zero_step fuel v start stop h hstart
  · intro fuel
    exact stepRangeWrapLoopOpt_cycle fuel _ 0 (Or.inl rfl)

/-- C10 is false as originally stated: step_size >= 1 does not
guarantee that the call returns with the value of
set_step_range_to_false.  At start 5, stop 10, step_size 2^64 - 1 the
release-mode loop exits (within 16 iterations) with an array
differing from set_step_range_to_false at indices 0 through 4, and a
debug build panics on the overflowing add instead of returning. -/
theorem claim_C10_counterexample :
    stepRangeWrapLoopOpt 16 (List.replicate 10 true) 5 10
        18446744073709551615 =
      some [false, false, false, false, false, false, true, true, true, true] ∧
    set_step_range_to_false (List.replicate 10 true) 5 10
        18446744073709551615 =
      [true, true, true, true, true, false, true, true, true, true] := by
  refine ⟨by decide, by decide⟩

theorem claim_C10_witness :
    stepRangeWrapLoopOpt 4 [true, true, true, true] 0 4 2 =
      some (set_step_range_to_false [true, true, true, true] 0 4 2) ∧
    stepRangeWrapLoopOpt 9 [true, true, true] 0 3 0 = none :=
  ⟨(claim_C10 [true, true, true, true] 0 4 2 (by decide) (by decide)
      (by decide)).1 (Or.inl ⟨by decide, by decide⟩),
   (claim_C10 [true, true, true] 0 3 0 (by decide) (by decide)
      (by decide)).2.1 rfl (by decide) 9⟩

end Sieves
